import Mathlib

/-!
Verification of the wl2k-go specification against the source of the
`lzhuf` package (writer.go) and the `fbb` package (the B2F session engine).

Byte sequences are modelled as `List Nat` with values below 256; Go's
fixed-width integers are modelled as `Int`/`Nat` with explicit `% 2^w`
reductions at the points where the Go code truncates.
-/

namespace Lzhuf

/-- Modelled from the spec: the CRC-16 writer of the missing crc16.go
(CCITT polynomial 0x1021, initial value 0, bytes folded MSB-first).
Only the placement of the CRC and the bytes it is computed over matter
for the claims below, not the particular residue function. -/
def crcByte (c b : Nat) : Nat :=
  let c0 := (Nat.xor c ((b % 256) * 256)) % 65536
  (List.range 8).foldl
    (fun acc _ =>
      if 32768 ≤ acc then (Nat.xor (acc * 2) 0x1021) % 65536 else (acc * 2) % 65536)
    c0

/-- Modelled from the spec: `crc` over a byte slice (crc16.go is not among
the provided sources). -/
def crc (bs : List Nat) : Nat := bs.foldl crcByte 0

/-- `binary.Write(w, binary.LittleEndian, sum)` for the 2-byte crc16 value. -/
def putUint16LE (n : Nat) : List Nat := [n % 256, n / 256 % 256]

/-- `binary.Write(&lengthBytes, binary.LittleEndian, w.fileSize)`:
the little-endian bytes of a two's-complement int32. -/
def putInt32LE (n : Int) : List Nat :=
  let u := (n % 4294967296).toNat
  [u % 256, u / 256 % 256, u / 65536 % 256, u / 16777216 % 256]

/-- The byte stream `Writer.Close` hands to the underlying writer once the
compression loop has left the bit-packed payload in `w.buf` and the input
byte count in `w.fileSize` (writer.go lines 99-120): first the optional
2-byte CRC of `lengthBytes ++ payload`, then the 4 length bytes
(`io.Copy(w.w, &lengthBytes)`), then the payload (`io.Copy(w.w, w.buf)`). -/
def Writer.CloseOutput (crc16 : Bool) (fileSize : Int) (payload : List Nat) : List Nat :=
  let lengthBytes := putInt32LE fileSize
  let checksumBytes := if crc16 then putUint16LE (crc (lengthBytes ++ payload)) else []
  checksumBytes ++ lengthBytes ++ payload

/-- `binary.Read` of a little-endian uint16 from a byte stream. -/
def readUint16LE : List Nat → Option (Nat × List Nat)
  | b0 :: b1 :: rest => some (b0 % 256 + b1 % 256 * 256, rest)
  | _ => none

/-- `binary.Read` of a little-endian two's-complement int32. -/
def readInt32LE : List Nat → Option (Int × List Nat)
  | b0 :: b1 :: b2 :: b3 :: rest =>
    let u := b0 % 256 + b1 % 256 * 256 + b2 % 256 * 65536 + b3 % 256 * 16777216
    some (if u < 2147483648 then (u : Int) else (u : Int) - 4294967296, rest)
  | _ => none

/-- `binary.Read(r, binary.LittleEndian, &d.header.crc)` followed by
`binary.Read(r, binary.LittleEndian, &d.header.size)` at the head of
`NewReader` (writer.go lines 284-303): consume the optional 2-byte CRC and
the 4-byte little-endian int32 size, returning them with the remaining
stream. Returns `none` when the input is too short. -/
def Reader.readHeader (crc16 : Bool) (input : List Nat) :
    Option (Nat × Int × List Nat) :=
  match (if crc16 then readUint16LE input else some (0, input)) with
  | none => none
  | some (c, rest) =>
    match readInt32LE rest with
    | none => none
    | some (size, rest2) => some (c, size, rest2)

theorem readUint16LE_putUint16LE (n : Nat) (hn : n < 65536) (rest : List Nat) :
    readUint16LE (putUint16LE n ++ rest) = some (n, rest) := by
  simp only [putUint16LE, List.cons_append, List.nil_append, readUint16LE,
    Option.some.injEq, Prod.mk.injEq]
  exact ⟨by omega, trivial⟩

theorem readInt32LE_putInt32LE (n : Int) (hlo : -2147483648 ≤ n)
    (hhi : n < 2147483648) (rest : List Nat) :
    readInt32LE (putInt32LE n ++ rest) = some (n, rest) := by
  simp only [putInt32LE, List.cons_append, List.nil_append, readInt32LE,
    Option.some.injEq, Prod.mk.injEq]
  refine ⟨?_, trivial⟩
  have hu : (n % 4294967296).toNat < 4294967296 := by omega
  split <;> omega

theorem crcByte_lt (c b : Nat) : crcByte c b < 65536 := by
  unfold crcByte
  have hinit : (Nat.xor c ((b % 256) * 256)) % 65536 < 65536 := Nat.mod_lt _ (by norm_num)
  generalize (Nat.xor c ((b % 256) * 256)) % 65536 = c0 at hinit ⊢
  generalize List.range 8 = l
  induction l generalizing c0 with
  | nil => simpa
  | cons x xs ih =>
    rw [List.foldl_cons]
    exact ih _ (by split <;> exact Nat.mod_lt _ (by norm_num))

theorem foldl_crcByte_lt (bs : List Nat) (a : Nat) (ha : a < 65536) :
    List.foldl crcByte a bs < 65536 := by
  induction bs generalizing a with
  | nil => simpa
  | cons x xs ih => rw [List.foldl_cons]; exact ih _ (crcByte_lt a x)

theorem crc_lt (bs : List Nat) : crc bs < 65536 :=
  foldl_crcByte_lt bs 0 (by norm_num)

/-- Errors surfaced by the lzhuf Reader, as Go error values. -/
inductive GoErr where
  | eof
  | unexpectedEOF
  | errChecksum
  | other (msg : String)
deriving DecidableEq, Repr

/-- The state of a `Reader` (writer.go lines 254-272) at the points where
`Read` and `Close` inspect it: the latched error `d.err`, the bit reader's
sticky error `d.r.Err()`, the B2 flag, the two header fields, the running
CRC of the consumed compressed bytes (`d.crcw.Sum()`), the number of
decoded bytes `d.state.pos` and the number of decoded-but-unread bytes
`d.state.buf.Len()`. -/
structure ReaderState where
  err : Option GoErr
  rErr : Option GoErr
  crc16 : Bool
  headerCrc : Nat
  crcSum : Nat
  headerSize : Int
  pos : Int
  bufLen : Nat
deriving DecidableEq, Repr

/-- `Reader.Close` (writer.go lines 313-326), a direct transcription of the
switch statement. -/
def Reader.Close (d : ReaderState) : Option GoErr :=
  if d.err ≠ none then d.err
  else if d.rErr ≠ none then d.rErr
  else if d.crc16 ∧ d.headerCrc ≠ d.crcSum then some .errChecksum
  else if d.headerSize ≠ d.pos - (d.bufLen : Int) then some .errChecksum
  else none

/-- Outcome of the error-classification switch at the top of `Reader.Read`. -/
inductive ReadEntry where
  | ret (n : Nat) (e : Option GoErr)
  | proceed (d : ReaderState)
deriving DecidableEq, Repr

/-- The switch at the head of `Reader.Read` (writer.go lines 331-345): a
sticky EOF of the bit reader before `pos` reached the header size becomes
`io.ErrUnexpectedEOF`; any other bit reader error is latched; a completed
stream with an empty buffer is a clean EOF; a previously latched error is
re-returned; otherwise decoding proceeds. -/
def Reader.readEntry (d : ReaderState) : ReadEntry :=
  if d.rErr = some .eof ∧ d.pos < d.headerSize then
    .ret 0 (some .unexpectedEOF)
  else if d.rErr ≠ none then
    .ret 0 d.rErr
  else if d.pos = d.headerSize ∧ d.bufLen = 0 then
    .ret 0 (some .eof)
  else if d.err ≠ none then
    .ret 0 d.err
  else
    .proceed d

end Lzhuf

/-- Claim C2: the lzhuf Reader's Close returns the invalid-checksum error
exactly when the running CRC over the consumed compressed bytes disagrees
with the header CRC (B2 mode only) or the delivered byte count disagrees
with the 32-bit length header (given that no read error was latched); and
when the underlying input ends (sticky EOF) before the decoded byte count
reaches the header length, Read reports `io.ErrUnexpectedEOF`, not a clean
EOF. -/
theorem C2_reader_close_and_eof :
    (∀ d : Lzhuf.ReaderState, d.err = none → d.rErr = none →
      (Lzhuf.Reader.Close d = some .errChecksum ↔
        ((d.crc16 ∧ d.headerCrc ≠ d.crcSum) ∨
          d.headerSize ≠ d.pos - (d.bufLen : Int)))) ∧
    (∀ d : Lzhuf.ReaderState, d.rErr = some .eof → d.pos < d.headerSize →
      Lzhuf.Reader.readEntry d = .ret 0 (some .unexpectedEOF) ∧
        Lzhuf.Reader.readEntry d ≠ .ret 0 (some .eof)) := by
  constructor
  · intro d herr hrerr
    by_cases hc : d.crc16 ∧ d.headerCrc ≠ d.crcSum <;>
      by_cases hs : d.headerSize ≠ d.pos - (d.bufLen : Int) <;>
      simp [Lzhuf.Reader.Close, herr, hrerr, hc, hs]
  · intro d hrerr hpos
    refine ⟨?_, ?_⟩
    · simp [Lzhuf.Reader.readEntry, hrerr, hpos]
    · simp [Lzhuf.Reader.readEntry, hrerr, hpos]

/-- Witness for C2 at a concrete reader state: a B2 reader whose CRC
matches but whose delivered count falls short reports the checksum error,
and a truncated stream reports unexpected EOF. -/
theorem C2_witness :
    (Lzhuf.Reader.Close
        { err := none, rErr := none, crc16 := true, headerCrc := 7,
          crcSum := 7, headerSize := 10, pos := 4, bufLen := 0 } =
      some .errChecksum) ∧
    (Lzhuf.Reader.readEntry
        { err := none, rErr := some .eof, crc16 := true, headerCrc := 7,
          crcSum := 7, headerSize := 10, pos := 4, bufLen := 0 } =
      .ret 0 (some .unexpectedEOF)) := by
  constructor
  · exact (C2_reader_close_and_eof.1
      { err := none, rErr := none, crc16 := true, headerCrc := 7,
        crcSum := 7, headerSize := 10, pos := 4, bufLen := 0 }
      rfl rfl).2 (by decide)
  · exact ((C2_reader_close_and_eof.2
      { err := none, rErr := some .eof, crc16 := true, headerCrc := 7,
        crcSum := 7, headerSize := 10, pos := 4, bufLen := 0 }
      rfl (by decide)).1)

/-- Claim C3: Writer.Close emits the optional 2-byte CRC-16 first (crc16
mode only), then the uncompressed length as a little-endian 32-bit
integer, then the bit-packed payload; the CRC-16 is computed over the 4
length bytes followed by the payload bytes. The second conjunct checks
the layout against the Reader's own header parser: parsing the emitted
stream recovers exactly that CRC, the length, and the payload. -/
theorem C3_writer_close_layout (b : Bool) (sz : Int) (payload : List Nat)
    (hlo : -2147483648 ≤ sz) (hhi : sz < 2147483648) :
    Lzhuf.Writer.CloseOutput b sz payload =
      (if b then Lzhuf.putUint16LE (Lzhuf.crc (Lzhuf.putInt32LE sz ++ payload)) else [])
        ++ Lzhuf.putInt32LE sz ++ payload ∧
    Lzhuf.Reader.readHeader b (Lzhuf.Writer.CloseOutput b sz payload) =
      some (if b then Lzhuf.crc (Lzhuf.putInt32LE sz ++ payload) else 0, sz, payload) := by
  constructor
  · rfl
  · cases b with
    | false =>
      simp only [Lzhuf.Writer.CloseOutput, Lzhuf.Reader.readHeader,
        Bool.false_eq_true, if_false, List.nil_append,
        Lzhuf.readInt32LE_putInt32LE sz hlo hhi payload]
    | true =>
      have hc := Lzhuf.crc_lt (Lzhuf.putInt32LE sz ++ payload)
      simp only [Lzhuf.Writer.CloseOutput, Lzhuf.Reader.readHeader, if_true,
        List.append_assoc,
        Lzhuf.readUint16LE_putUint16LE _ hc (Lzhuf.putInt32LE sz ++ payload),
        Lzhuf.readInt32LE_putInt32LE sz hlo hhi payload]

/-- Witness for C3 at a concrete stream: fileSize 3 with a 2-byte payload,
in B2 mode. -/
theorem C3_witness :
    Lzhuf.Reader.readHeader true (Lzhuf.Writer.CloseOutput true 3 [9, 200]) =
      some (Lzhuf.crc (Lzhuf.putInt32LE 3 ++ [9, 200]), 3, [9, 200]) := by
  have h := (C3_writer_close_layout true 3 [9, 200] (by norm_num) (by norm_num)).2
  simpa using h

namespace Fbb

/-- Protocol control bytes (`_CHRNUL`, `_CHRSOH`, `_CHRSTX`, `_CHREOT`,
part_003 lines 48-53). -/
def CHRNUL : Nat := 0

def CHRSOH : Nat := 1

def CHRSTX : Nat := 2

def CHREOT : Nat := 4

/-- part_003 lines 24-31. -/
def ProtocolOffsetSizeLimit : Int := 999999

def MaxBlockSize : Nat := 5

def MaxMsgLength : Nat := 125

/-- ProposalAnswer. Modelled from the spec (proposal.go is not among the
provided sources): the `FS` answer map uses `+`, `-`, `=` per the grammar
in §6.3, and `unset` is the zero value of the byte-typed ProposalAnswer
(a freshly parsed proposal has no answer yet). -/
inductive PropAnswer where
  | unset
  | accept
  | reject
  | defer
deriving DecidableEq, Repr

/-- `byte(prop.answer)` as emitted in the FS line. -/
def PropAnswer.toByte : PropAnswer → Nat
  | .unset => 0
  | .accept => 43
  | .reject => 45
  | .defer => 61

/-- The fields of `fbb.Proposal` that the session functions under
verification read or write (proposal.go itself is not among the provided
sources; names and types follow their uses in part_003/part_004). -/
structure Proposal where
  code : Char
  msgType : String
  mid : String
  size : Nat
  compressedSize : Nat
  title : String
  offset : Int
  answer : PropAnswer
  compressedData : List Nat
deriving DecidableEq, Repr

/-- `Wl2kProposal` (code `C`) and `GzipProposal` (code `D`); modelled from
the spec and the constants `cmdPropC`/`cmdPropD` in part_003 lines 41-46. -/
def Wl2kProposal : Char := 'C'

def GzipProposal : Char := 'D'

/-- The chunking loop of `Session.writeCompressed` (part_003 lines
491-513): while the buffer is non-empty, take
`msgLen = min(MaxMsgLength, buffer.Len())` bytes as one chunk. Written
with fuel so it computes; `writeCompressedChunks` passes the data length,
which bounds the iteration count since every round consumes at least one
byte. -/
def writeCompressedChunksFuel : Nat → List Nat → List (List Nat)
  | 0, _ => []
  | _, [] => []
  | fuel + 1, data =>
    data.take (if data.length < MaxMsgLength then data.length else MaxMsgLength) ::
      writeCompressedChunksFuel fuel
        (data.drop (if data.length < MaxMsgLength then data.length else MaxMsgLength))

def writeCompressedChunks (data : List Nat) : List (List Nat) :=
  writeCompressedChunksFuel data.length data

/-- The body frame written by `Session.writeCompressed` after the SOH
header (part_003 lines 491-518): for each chunk the bytes STX,
`byte(msgLen)`, then the chunk data; finally EOT and the checksum byte
`byte(-Σ & 0xff)` over all data bytes. -/
def writeCompressedFrame (data : List Nat) : List Nat :=
  ((writeCompressedChunks data).map (fun ch => CHRSTX :: ch.length % 256 :: ch)).flatten
    ++ [CHREOT, ((-(data.sum : Int)) % 256).toNat]

theorem writeCompressedChunksFuel_spec (fuel : Nat) (data : List Nat)
    (hf : data.length ≤ fuel) :
    (writeCompressedChunksFuel fuel data).flatten = data ∧
      ∀ ch ∈ writeCompressedChunksFuel fuel data,
        1 ≤ ch.length ∧ ch.length ≤ MaxMsgLength := by
  induction fuel generalizing data with
  | zero =>
    have hd : data = [] := List.length_eq_zero.mp (Nat.le_zero.mp hf)
    subst hd
    simp [writeCompressedChunksFuel]
  | succ n ih =>
    cases data with
    | nil => simp [writeCompressedChunksFuel]
    | cons x xs =>
      have key : ∀ m : Nat, 1 ≤ m → m ≤ MaxMsgLength → m ≤ (x :: xs).length →
          ((x :: xs).take m ::
              writeCompressedChunksFuel n ((x :: xs).drop m)).flatten = x :: xs ∧
            ∀ ch ∈ (x :: xs).take m ::
                writeCompressedChunksFuel n ((x :: xs).drop m),
              1 ≤ ch.length ∧ ch.length ≤ MaxMsgLength := by
        intro m h1 h2 h3
        have hdrop : ((x :: xs).drop m).length ≤ n := by
          rw [List.length_drop]
          have : (x :: xs).length ≤ n + 1 := hf
          omega
        obtain ⟨ihj, ihc⟩ := ih _ hdrop
        constructor
        · rw [List.flatten_cons, ihj, List.take_append_drop]
        · intro ch hch
          rcases List.mem_cons.mp hch with h | h
          · subst h
            rw [List.length_take]
            omega
          · exact ihc ch h
      by_cases hcase : (x :: xs).length < MaxMsgLength
      · have hunfold : writeCompressedChunksFuel (n + 1) (x :: xs) =
            (x :: xs).take ((x :: xs).length) ::
              writeCompressedChunksFuel n ((x :: xs).drop ((x :: xs).length)) := by
          simp only [writeCompressedChunksFuel]
          rw [if_pos hcase]
        rw [hunfold]
        exact key _ (by simp) (le_of_lt hcase) (le_refl _)
      · have hunfold : writeCompressedChunksFuel (n + 1) (x :: xs) =
            (x :: xs).take MaxMsgLength ::
              writeCompressedChunksFuel n ((x :: xs).drop MaxMsgLength) := by
          simp only [writeCompressedChunksFuel]
          rw [if_neg hcase]
        rw [hunfold]
        exact key _ (by norm_num [MaxMsgLength]) (le_refl _) (by omega)

end Fbb

/-- Claim C10: every STX chunk emitted by the chunking loop of
writeCompressed carries between 1 and MaxMsgLength = 125 data bytes, so
the emitted length byte `byte(msgLen)` always equals the number of data
bytes that follow and is never 0 (the 256-byte encoding); moreover the
chunks reassemble to exactly the transmitted data. -/
theorem C10_writeCompressed_chunks (data : List Nat) :
    ((Fbb.writeCompressedChunks data).flatten = data) ∧
      ∀ ch ∈ Fbb.writeCompressedChunks data,
        (1 ≤ ch.length ∧ ch.length ≤ Fbb.MaxMsgLength) ∧
          ch.length % 256 = ch.length ∧ ch.length % 256 ≠ 0 := by
  obtain ⟨hj, hc⟩ :=
    Fbb.writeCompressedChunksFuel_spec data.length data (le_refl _)
  refine ⟨hj, ?_⟩
  intro ch hch
  obtain ⟨h1, h2⟩ := hc ch hch
  have hlt : ch.length < 256 := by
    have : Fbb.MaxMsgLength = 125 := rfl
    omega
  exact ⟨⟨h1, h2⟩, Nat.mod_eq_of_lt hlt, by rw [Nat.mod_eq_of_lt hlt]; omega⟩

/-- Witness for C10 on a concrete body: 3 bytes form one 3-byte chunk. -/
theorem C10_witness :
    [5, 6, 7] ∈ Fbb.writeCompressedChunks [5, 6, 7] ∧
      (1 ≤ ([5, 6, 7] : List Nat).length ∧
        ([5, 6, 7] : List Nat).length ≤ Fbb.MaxMsgLength) ∧
      ([5, 6, 7] : List Nat).length % 256 = ([5, 6, 7] : List Nat).length ∧
      ([5, 6, 7] : List Nat).length % 256 ≠ 0 :=
  ⟨by decide, (C10_writeCompressed_chunks [5, 6, 7]).2 [5, 6, 7] (by decide)⟩

namespace Fbb

/-- Result of the body-reading loop of `Session.readCompressed`. -/
inductive ReadCompressedResult where
  | ok (data : List Nat)
  | fail (msg : String)
  | needInput
deriving DecidableEq, Repr

/-- The chunk-reading loop of `Session.readCompressed` (part_003 lines
621-660) over a stream of input bytes: `bufAcc` models `buf`,
`ourChecksum` the running `(ourChecksum + c) % 256`. A length byte of 0
after STX means a 256-byte chunk. `needInput` models a failing `ReadByte`
whose error the code returns; the length byte after STX and the byte
after EOT are read with the error ignored (a failed read leaves 0), hence
`headD 0`. Fuel bounds loop iterations; the wrapper passes the input
length, which suffices since each iteration consumes at least one byte. -/
def readCompressedLoop (compressedSize : Nat) :
    Nat → List Nat → List Nat → Nat → ReadCompressedResult
  | 0, _, _, _ => .needInput
  | fuel + 1, input, bufAcc, ourChecksum =>
    match input with
    | [] => .needInput
    | c :: rest =>
      if c = CHRSTX then
        let len := if rest.headD 0 = 0 then 256 else rest.headD 0
        if len ≤ rest.tail.length then
          readCompressedLoop compressedSize fuel (rest.tail.drop len)
            (bufAcc ++ rest.tail.take len)
            ((rest.tail.take len).foldl (fun s b => (s + b) % 256) ourChecksum)
        else .needInput
      else if c = CHREOT then
        if (ourChecksum + rest.headD 0) % 256 ≠ 0 then .fail "Bad checksum"
        else if compressedSize ≠ bufAcc.length then .fail "Length mismatch after EOT"
        else .ok bufAcc
      else .fail "Unexpected byte in compressed stream"

def readCompressedBody (compressedSize : Nat) (input : List Nat) :
    ReadCompressedResult :=
  readCompressedLoop compressedSize input.length input [] 0

/-- STX framing of one chunk as transmitted on the wire; a 256-byte chunk
gets length byte 0. -/
def stxChunk (ch : List Nat) : List Nat := CHRSTX :: ch.length % 256 :: ch

def stxChunks (chunks : List (List Nat)) : List Nat := (chunks.map stxChunk).flatten

theorem foldl_mod_sum (l : List Nat) (a : Nat) (ha : a < 256) :
    l.foldl (fun s b => (s + b) % 256) a = (a + l.sum) % 256 := by
  induction l generalizing a with
  | nil => simpa using (Nat.mod_eq_of_lt ha).symm
  | cons x xs ih =>
    rw [List.foldl_cons, ih _ (Nat.mod_lt _ (by norm_num)), List.sum_cons]
    omega

theorem readCompressedLoop_stxChunks (size cs : Nat) :
    ∀ chunks : List (List Nat),
      (∀ ch ∈ chunks, 1 ≤ ch.length ∧ ch.length ≤ 256) →
      ∀ (fuel : Nat) (acc : List Nat) (s : Nat), s < 256 →
        (stxChunks chunks ++ [CHREOT, cs]).length ≤ fuel →
        readCompressedLoop size fuel (stxChunks chunks ++ [CHREOT, cs]) acc s =
          (if (s + chunks.flatten.sum + cs) % 256 ≠ 0 then .fail "Bad checksum"
           else if size ≠ (acc ++ chunks.flatten).length then
             .fail "Length mismatch after EOT"
           else .ok (acc ++ chunks.flatten)) := by
  intro chunks
  induction chunks with
  | nil =>
    intro _ fuel acc s hs hf
    match fuel, hf with
    | fuel + 1, _ =>
      simp [readCompressedLoop, stxChunks, CHREOT, CHRSTX]
  | cons ch rest ih =>
    intro hch fuel acc s hs hf
    obtain ⟨h1, h256⟩ := hch ch (List.mem_cons_self ch rest)
    have hinput : stxChunks (ch :: rest) ++ [CHREOT, cs] =
        CHRSTX :: ch.length % 256 :: (ch ++ (stxChunks rest ++ [CHREOT, cs])) := by
      simp [stxChunks, stxChunk, List.append_assoc]
    rw [hinput] at hf ⊢
    match fuel, hf with
    | fuel + 1, hf =>
      have hlen : (if ch.length % 256 = 0 then (256 : Nat) else ch.length % 256)
          = ch.length := by
        split <;> omega
      have htail :
          (ch.length % 256 :: (ch ++ (stxChunks rest ++ [CHREOT, cs]))).tail
            = ch ++ (stxChunks rest ++ [CHREOT, cs]) := rfl
      have hhead :
          (ch.length % 256 :: (ch ++ (stxChunks rest ++ [CHREOT, cs]))).headD 0
            = ch.length % 256 := rfl
      simp only [readCompressedLoop, hhead, htail, hlen, if_pos rfl]
      have hle : ch.length ≤ (ch ++ (stxChunks rest ++ [CHREOT, cs])).length := by
        simp
      rw [if_pos hle]
      rw [List.take_left, List.drop_left]
      rw [foldl_mod_sum ch s hs]
      rw [ih (fun c hc => hch c (List.mem_cons_of_mem ch hc)) fuel (acc ++ ch)
          ((s + ch.sum) % 256) (Nat.mod_lt _ (by norm_num)) (by simp at hf ⊢; omega)]
      have hsum : ((s + ch.sum) % 256 + rest.flatten.sum + cs) % 256 =
          (s + (ch ++ rest.flatten).sum + cs) % 256 := by
        rw [List.sum_append]
        omega
      rw [List.flatten_cons, hsum, List.append_assoc]
      simp

end Fbb

/-- Claim C5: in the chunk loop of readCompressed, an STX chunk whose
length byte is 0 is read as 256 data bytes; and after EOT the frame is
accepted exactly when the running sum of all chunk data bytes plus the
trailing checksum byte is 0 modulo 256 (otherwise the bad-checksum error)
and the number of received data bytes equals the proposal's compressed
size (otherwise the length-mismatch error). -/
theorem C5_readCompressed_frames (size cs : Nat) (chunks : List (List Nat))
    (hch : ∀ ch ∈ chunks, 1 ≤ ch.length ∧ ch.length ≤ 256) :
    Fbb.readCompressedBody size (Fbb.stxChunks chunks ++ [Fbb.CHREOT, cs]) =
      (if (chunks.flatten.sum + cs) % 256 ≠ 0 then .fail "Bad checksum"
       else if size ≠ chunks.flatten.length then .fail "Length mismatch after EOT"
       else .ok chunks.flatten) := by
  have h := Fbb.readCompressedLoop_stxChunks size cs chunks hch
    (Fbb.stxChunks chunks ++ [Fbb.CHREOT, cs]).length [] 0 (by norm_num) (le_refl _)
  simpa [Fbb.readCompressedBody] using h

/-- Witness for C5: a single 3-byte chunk with the correct checksum byte
and matching size is accepted; the same frame under a wrong declared size
is rejected. The 256-byte encoding is exercised through `stxChunk`, whose
length byte for a 256-byte chunk is 0. -/
theorem C5_witness :
    Fbb.readCompressedBody 3 (Fbb.stxChunks [[1, 2, 3]] ++ [Fbb.CHREOT, 250]) =
        .ok [1, 2, 3] ∧
      Fbb.readCompressedBody 9 (Fbb.stxChunks [[1, 2, 3]] ++ [Fbb.CHREOT, 250]) =
        .fail "Length mismatch after EOT" ∧
      Fbb.readCompressedBody 3 (Fbb.stxChunks [[1, 2, 3]] ++ [Fbb.CHREOT, 99]) =
        .fail "Bad checksum" :=
  ⟨(C5_readCompressed_frames 3 250 [[1, 2, 3]] (by decide)).trans (by decide),
   (C5_readCompressed_frames 9 250 [[1, 2, 3]] (by decide)).trans (by decide),
   (C5_readCompressed_frames 3 99 [[1, 2, 3]] (by decide)).trans (by decide)⟩

namespace Fbb

/-- Character-code sum of one protocol line plus its trailing CR, as
accumulated by `for _, c := range sp { checksum += int64(c) }` followed by
`checksum += int64(0x0D)` (part_003 lines 136-139 and 223-226). -/
def lineSum (line : List Char) : Int :=
  (line.map (fun c => (c.toNat : Int))).sum + 13

/-- The proposal line built by sendOutbound (part_003 lines 126-132):
`fmt.Sprintf("F%c %s %s %d %d %d", code, msgType, mid, size,
compressedSize, 0)`. -/
def proposalLine (p : Proposal) : List Char :=
  'F' :: p.code :: ' ' :: (p.msgType.data ++ ' ' :: (p.mid.data ++ ' ' ::
    ((toString p.size).data ++ ' ' ::
      ((toString p.compressedSize).data ++ [' ', '0']))))

/-- Sum over a whole proposal block: every byte of every proposal line,
each line's CR included. -/
def blockSum (props : List Proposal) : Int :=
  (props.map (fun p => lineSum (proposalLine p))).sum

/-- The `F>` checksum emitted by sendOutbound (part_003 line 141):
`(-checksum) & 0xff` on a Go int64; the low byte of a two's-complement
value is its nonnegative residue mod 256 (wraparound of the int64
accumulator preserves the residue since 256 divides 2^64). -/
def sendOutboundChecksum (props : List Proposal) : Int :=
  (-(blockSum props)) % 256

/-- Value of one hexadecimal digit as accepted by strconv.ParseInt base 16. -/
def hexDigitVal (c : Char) : Option Nat :=
  if '0' ≤ c ∧ c ≤ '9' then some (c.toNat - 48)
  else if 'a' ≤ c ∧ c ≤ 'f' then some (c.toNat - 87)
  else if 'A' ≤ c ∧ c ≤ 'F' then some (c.toNat - 55)
  else none

def hexVal : List Char → Option Nat
  | [] => none
  | ds =>
    ds.foldl
      (fun acc c =>
        match acc, hexDigitVal c with
        | some a, some v => some (a * 16 + v)
        | _, _ => none)
      (some 0)

/-- `strconv.ParseInt(line[3:], 16, 64)` with the returned error discarded
(`their, _ :=`, part_003 line 249): the parsed value on success, otherwise
0. ParseInt accepts one leading sign. The int64 range clamp is not
modelled: any clamped value still differs from every mod-256 residue, so
the comparison claims are unaffected. -/
def goParseHex (s : List Char) : Int :=
  match s with
  | '+' :: ds => ((hexVal ds).getD 0 : Nat)
  | '-' :: ds => -(((hexVal ds).getD 0 : Nat) : Int)
  | ds => ((hexVal ds).getD 0 : Nat)

/-- Decimal number field, all digits. -/
def decVal : List Char → Option Nat
  | [] => none
  | ds =>
    ds.foldl
      (fun acc c =>
        match acc with
        | some a => if '0' ≤ c ∧ c ≤ '9' then some (a * 10 + (c.toNat - 48)) else none
        | none => none)
      (some 0)

/-- Modelled from the spec: `parseProposal` (proposal.go is not among the
provided sources). Grammar §6.3: `proposal := "F" code SP type SP mid SP
dec SP dec SP dec`; the two sizes fill `size` and `compressedSize` and the
remaining fields start at their zero values. -/
def parseProposal (line : List Char) : Except String Proposal :=
  match line.splitOn ' ' with
  | [f, typ, mid, d1, d2, d3] =>
    match f, decVal d1, decVal d2, decVal d3 with
    | ['F', code], some sz, some csz, some _ =>
      .ok { code := code, msgType := String.mk typ, mid := String.mk mid,
            size := sz, compressedSize := csz, title := "", offset := 0,
            answer := .unset, compressedData := [] }
    | _, _, _, _ => .error "Unable to parse proposal"
  | _ => .error "Unable to parse proposal"

end Fbb

namespace Fbb

/-- The mailbox handler as seen by writeProposalsAnswer: absent
(`s.h == nil`), a plain InboundHandler answering one proposal at a time
(`GetInboundAnswer`), or a BatchedInboundHandler answering the whole
slice of unanswered proposals at once (`GetInboundAnswers`). -/
inductive Handler where
  | missing
  | single (f : Proposal → PropAnswer)
  | batched (f : List Proposal → List PropAnswer)

/-- `s.h == nil`. -/
def Handler.isMissing : Handler → Bool
  | .missing => true
  | _ => false

/-- First pass of part_003's writeProposalsAnswer (lines 309-329): walk
the proposals maintaining the `seen` MID set; a MID seen before, a code
other than C/D, or a missing handler forces Defer (tested in that order);
the rest stay unanswered (marked `true`). `seen[prop.MID()] = true` runs
on every branch. The handler enters this pass only through `s.h == nil`,
so only `Handler.isMissing` is passed. -/
def markProposals (hMissing : Bool) : List Proposal → List String → List (Proposal × Bool)
  | [], _ => []
  | p :: ps, seen =>
    if p.mid ∈ seen then
      ({ p with answer := .defer }, false) :: markProposals hMissing ps (p.mid :: seen)
    else if p.code ≠ Wl2kProposal ∧ p.code ≠ GzipProposal then
      ({ p with answer := .defer }, false) :: markProposals hMissing ps (p.mid :: seen)
    else if hMissing then
      ({ p with answer := .defer }, false) :: markProposals hMissing ps (p.mid :: seen)
    else
      (p, true) :: markProposals hMissing ps (p.mid :: seen)

/-- Second pass for a BatchedInboundHandler (lines 332-341): the returned
answers land on the unanswered proposals in order. Too few answers would
make the Go code panic on the slice index; the model leaves those
proposals unanswered instead. -/
def applyBatchAnswers : List (Proposal × Bool) → List PropAnswer → List Proposal
  | [], _ => []
  | (p, false) :: rest, answers => p :: applyBatchAnswers rest answers
  | (p, true) :: rest, [] => p :: applyBatchAnswers rest []
  | (p, true) :: rest, a :: answers =>
    { p with answer := a } :: applyBatchAnswers rest answers

/-- part_003 writeProposalsAnswer (lines 307-360): mark forced defers,
then ask the installed handler for the remaining proposals (batched when
it implements BatchedInboundHandler, otherwise one `GetInboundAnswer`
call per proposal). Returns the proposals with answers set, in order. -/
def writeProposalsAnswer (h : Handler) (props : List Proposal) : List Proposal :=
  let marked := markProposals h.isMissing props []
  match h with
  | .missing => marked.map Prod.fst
  | .single f =>
    marked.map (fun q => if q.2 then { q.1 with answer := f q.1 } else q.1)
  | .batched f =>
    applyBatchAnswers marked (f ((marked.filter (fun q => q.2)).map Prod.fst))

/-- The accept count returned to handleInbound (lines 349-356). -/
def nAcceptedOf (props : List Proposal) : Nat :=
  props.countP (fun p => p.answer == PropAnswer.accept)

theorem markProposals_getElem? (hMissing : Bool) :
    ∀ (ps : List Proposal) (seen : List String) (i : Nat) (p : Proposal),
      ps[i]? = some p →
      (markProposals hMissing ps seen)[i]? =
        some (if p.mid ∈ seen ∨ p.mid ∈ (ps.take i).map (fun q => q.mid) ∨
                (p.code ≠ Wl2kProposal ∧ p.code ≠ GzipProposal) ∨ hMissing = true
          then ({ p with answer := .defer }, false) else (p, true)) := by
  intro ps
  induction ps with
  | nil => intro seen i p hp; simp at hp
  | cons q qs ih =>
    intro seen i p hp
    cases i with
    | zero =>
      have hq : q = p := by simpa using hp
      subst hq
      by_cases h1 : q.mid ∈ seen
      · simp [markProposals, h1]
      · by_cases h2 : q.code ≠ Wl2kProposal ∧ q.code ≠ GzipProposal
        · simp [markProposals, h1, h2]
        · cases hMissing <;> simp [markProposals, h1, h2]
    | succ j =>
      simp only [List.getElem?_cons_succ] at hp
      have hstep : (markProposals hMissing (q :: qs) seen)[j + 1]? =
          (markProposals hMissing qs (q.mid :: seen))[j]? := by
        by_cases h1 : q.mid ∈ seen
        · simp [markProposals, h1]
        · by_cases h2 : q.code ≠ Wl2kProposal ∧ q.code ≠ GzipProposal
          · simp [markProposals, h1, h2]
          · cases hMissing <;> simp [markProposals, h1, h2]
      rw [hstep, ih (q.mid :: seen) j p hp]
      congr 1
      refine if_congr ?_ rfl rfl
      rw [List.take_succ_cons, List.map_cons]
      constructor
      · rintro (h | h | h)
        · rcases List.mem_cons.mp h with h | h
          · exact Or.inr (Or.inl (List.mem_cons.mpr (Or.inl h)))
          · exact Or.inl h
        · exact Or.inr (Or.inl (List.mem_cons.mpr (Or.inr h)))
        · exact Or.inr (Or.inr h)
      · rintro (h | h | h)
        · exact Or.inl (List.mem_cons.mpr (Or.inr h))
        · rcases List.mem_cons.mp h with h | h
          · exact Or.inl (List.mem_cons.mpr (Or.inl h))
          · exact Or.inr (Or.inl h)
        · exact Or.inr (Or.inr h)

theorem applyBatchAnswers_getElem?_false :
    ∀ (marked : List (Proposal × Bool)) (answers : List PropAnswer)
      (i : Nat) (q : Proposal),
      marked[i]? = some (q, false) →
      (applyBatchAnswers marked answers)[i]? = some q := by
  intro marked
  induction marked with
  | nil => intro answers i q h; simp at h
  | cons x rest ih =>
    intro answers i q h
    obtain ⟨p, b⟩ := x
    cases b with
    | false =>
      cases i with
      | zero =>
        have : p = q := by simpa using h
        subst this
        simp [applyBatchAnswers]
      | succ j =>
        simp only [List.getElem?_cons_succ] at h
        simpa [applyBatchAnswers] using ih answers j q h
    | true =>
      cases answers with
      | nil =>
        cases i with
        | zero => simp at h
        | succ j =>
          simp only [List.getElem?_cons_succ] at h
          simpa [applyBatchAnswers] using ih [] j q h
      | cons a answers =>
        cases i with
        | zero => simp at h
        | succ j =>
          simp only [List.getElem?_cons_succ] at h
          simpa [applyBatchAnswers] using ih answers j q h

theorem applyBatchAnswers_map (g : Proposal → PropAnswer) :
    ∀ marked : List (Proposal × Bool),
      applyBatchAnswers marked
          (((marked.filter (fun q => q.2)).map Prod.fst).map g) =
        marked.map (fun q => if q.2 then { q.1 with answer := g q.1 } else q.1) := by
  intro marked
  induction marked with
  | nil => rfl
  | cons x rest ih =>
    obtain ⟨p, b⟩ := x
    cases b with
    | false => simpa [applyBatchAnswers, List.filter_cons] using ih
    | true => simpa [applyBatchAnswers, List.filter_cons] using ih

end Fbb

/-- Claim C6: writeProposalsAnswer answers Defer for every proposal that
duplicates an earlier MID in the same block, for every proposal whose
code is neither C nor D, and for every proposal when no mailbox handler
is installed; only the remaining proposals are answered by asking the
handler — per proposal for a plain handler, and a batched handler that
answers pointwise yields exactly the plain handler's result. -/
theorem C6_writeProposalsAnswer :
    ∀ (h : Fbb.Handler) (props : List Fbb.Proposal) (i : Nat) (p : Fbb.Proposal),
      props[i]? = some p →
      ((p.mid ∈ (props.take i).map (fun q => q.mid) ∨
          (p.code ≠ Fbb.Wl2kProposal ∧ p.code ≠ Fbb.GzipProposal) ∨
          h.isMissing = true) →
        (Fbb.writeProposalsAnswer h props)[i]? =
          some { p with answer := .defer }) ∧
      (∀ f, h = .single f →
        p.mid ∉ (props.take i).map (fun q => q.mid) →
        (p.code = Fbb.Wl2kProposal ∨ p.code = Fbb.GzipProposal) →
        (Fbb.writeProposalsAnswer h props)[i]? =
          some { p with answer := f p }) ∧
      (∀ g, Fbb.writeProposalsAnswer (.batched fun qs => qs.map g) props =
        Fbb.writeProposalsAnswer (.single g) props) := by
  intro h props i p hp
  refine ⟨?_, ?_, ?_⟩
  · intro hforced
    cases h with
    | missing =>
      have hmark := Fbb.markProposals_getElem? true props [] i p hp
      rw [if_pos (Or.inr (Or.inr (Or.inr rfl)))] at hmark
      show ((Fbb.markProposals true props []).map Prod.fst)[i]? = _
      rw [List.getElem?_map, hmark]
      rfl
    | single f =>
      have hf2 : p.mid ∈ (props.take i).map (fun q => q.mid) ∨
          (p.code ≠ Fbb.Wl2kProposal ∧ p.code ≠ Fbb.GzipProposal) := by
        rcases hforced with hA | hA | hA
        · exact Or.inl hA
        · exact Or.inr hA
        · exact absurd hA (by simp [Fbb.Handler.isMissing])
      have hmark := Fbb.markProposals_getElem? false props [] i p hp
      rw [if_pos (Or.inr (by tauto))] at hmark
      show ((Fbb.markProposals false props []).map _)[i]? = _
      rw [List.getElem?_map, hmark]
      rfl
    | batched f =>
      have hf2 : p.mid ∈ (props.take i).map (fun q => q.mid) ∨
          (p.code ≠ Fbb.Wl2kProposal ∧ p.code ≠ Fbb.GzipProposal) := by
        rcases hforced with hA | hA | hA
        · exact Or.inl hA
        · exact Or.inr hA
        · exact absurd hA (by simp [Fbb.Handler.isMissing])
      have hmark := Fbb.markProposals_getElem? false props [] i p hp
      rw [if_pos (Or.inr (by tauto))] at hmark
      exact Fbb.applyBatchAnswers_getElem?_false _ _ i _ hmark
  · intro f hf hdup hcode
    subst hf
    have hcond : ¬(p.mid ∈ ([] : List String) ∨
        p.mid ∈ (props.take i).map (fun q => q.mid) ∨
        (p.code ≠ Fbb.Wl2kProposal ∧ p.code ≠ Fbb.GzipProposal) ∨
        (false : Bool) = true) := by
      push_neg
      refine ⟨by simp, hdup, fun hne => ?_, by simp⟩
      rcases hcode with hc | hc
      · exact absurd hc hne
      · exact hc
    have hmark := Fbb.markProposals_getElem? false props [] i p hp
    rw [if_neg hcond] at hmark
    show ((Fbb.markProposals false props []).map _)[i]? = _
    rw [List.getElem?_map, hmark]
    rfl
  · intro g
    show Fbb.applyBatchAnswers (Fbb.markProposals false props [])
        ((fun qs => qs.map g)
          (((Fbb.markProposals false props []).filter (fun q => q.2)).map Prod.fst)) =
      (Fbb.markProposals false props []).map
        (fun q => if q.2 then { q.1 with answer := g q.1 } else q.1)
    exact Fbb.applyBatchAnswers_map g (Fbb.markProposals false props [])

/-- A small concrete proposal for the C6 witness. -/
def demoProposal (c : Char) (m : String) : Fbb.Proposal :=
  { code := c, msgType := "EM", mid := m, size := 10, compressedSize := 8,
    title := "t", offset := 0, answer := .unset, compressedData := [] }

/-- Witness for C6: in a two-proposal block with equal MIDs and an
always-accept handler, the first proposal is accepted and the duplicate
is deferred. -/
theorem C6_witness :
    (Fbb.writeProposalsAnswer (.single fun _ => .accept)
        [demoProposal 'C' "AAA", demoProposal 'C' "AAA"])[0]? =
      some { demoProposal 'C' "AAA" with answer := .accept } ∧
    (Fbb.writeProposalsAnswer (.single fun _ => .accept)
        [demoProposal 'C' "AAA", demoProposal 'C' "AAA"])[1]? =
      some { demoProposal 'C' "AAA" with answer := .defer } := by
  constructor
  · exact (C6_writeProposalsAnswer (.single fun _ => .accept)
        [demoProposal 'C' "AAA", demoProposal 'C' "AAA"] 0
        (demoProposal 'C' "AAA") (by decide)).2.1
      (fun _ => .accept) rfl (by decide) (Or.inl (by decide))
  · exact (C6_writeProposalsAnswer (.single fun _ => .accept)
        [demoProposal 'C' "AAA", demoProposal 'C' "AAA"] 1
        (demoProposal 'C' "AAA") (by decide)).1
      (Or.inl (by decide))

namespace Fbb

/-- Session state accumulated by the proposal-collecting loop of
part_003's handleInbound: the additive line checksum (a Go int64), the
collected proposals, and the `remoteNoMsgs` / `quitReceived` flags. -/
structure InboundState where
  ourChecksum : Int
  proposals : List Proposal
  remoteNoMsgs : Bool
  quitReceived : Bool
deriving DecidableEq, Repr

/-- How the `Loop` of handleInbound ends. -/
inductive LoopOut where
  | fatal (msg : String)
  | emptyBlockReturn (st : InboundState) (rest : List (List Char))
  | broke (st : InboundState) (rest : List (List Char))
  | noInput
deriving DecidableEq, Repr

/-- The error text of the F> mismatch (part_003 line 251,
`Checksum error (%d-%d)`). -/
def checksumErrMsg (our their : Int) : String :=
  "Checksum error (" ++ toString our ++ "-" ++ toString their ++ ")"

/-- The line-processing `Loop` of part_003's handleInbound (lines
195-274) over the stream of CR-terminated lines (CR stripped, as
delivered by `s.nextLine()`): `;PM` lines update the pending-message
table (not modelled) and continue; blank and `;` lines continue; a line
shorter than 2 or without the `F` prefix is fatal; FA/FB/FC/FD add the
line's bytes plus CR to the checksum and parse a proposal; FF and FQ set
their flag and break; `F>` checks `(-Σ) & 0xff` against the hex value of
`line[3:]` (mismatch fatal), returns directly on an empty block, and
otherwise answers the proposals and breaks — turnover implied regardless
of the number of accepted messages. `strings.HasPrefix(line, ";PM")` is
`line.take 3 = ";PM"`. Exhausting the input models a blocked or failed
`nextLine`, whose error the Go code returns. -/
def handleInboundLoop (h : Handler) :
    List (List Char) → InboundState → LoopOut
  | [], _ => .noInput
  | line :: rest, st =>
    if line.take 3 = [';', 'P', 'M'] then
      handleInboundLoop h rest st
    else if line = [] ∨ line.headD ' ' = ';' then
      handleInboundLoop h rest st
    else if line.length < 2 ∨ line.headD ' ' ≠ 'F' then
      .fatal "Got unexpected protocol line"
    else if line.take 2 = ['F', 'A'] ∨ line.take 2 = ['F', 'B'] ∨
        line.take 2 = ['F', 'C'] ∨ line.take 2 = ['F', 'D'] then
      match parseProposal line with
      | .error e => .fatal e
      | .ok prop =>
        handleInboundLoop h rest
          { st with ourChecksum := st.ourChecksum + lineSum line,
                    proposals := st.proposals ++ [prop] }
    else if line.take 2 = ['F', 'F'] then
      .broke { st with remoteNoMsgs := true } rest
    else if line.take 2 = ['F', 'Q'] then
      .broke { st with quitReceived := true } rest
    else if line.take 2 = ['F', '>'] then
      if goParseHex (line.drop 3) ≠ (-(st.ourChecksum)) % 256 then
        .fatal (checksumErrMsg ((-(st.ourChecksum)) % 256) (goParseHex (line.drop 3)))
      else if st.proposals = [] then
        .emptyBlockReturn { st with remoteNoMsgs := true } rest
      else
        .broke { st with remoteNoMsgs := false,
                         proposals := writeProposalsAnswer h st.proposals } rest
    else
      .fatal "Unknown protocol command"

/-- part_003 handleInbound through the proposal phase: run the loop from
the zero state, then apply the quit-while-pending guard (lines 276-278).
`nAccepted` is declared but never assigned in this variant — the count
returned by writeProposalsAnswer is discarded on line 265 — so the guard
compares against the constant 0. The subsequent fetch loop only acts on
proposals whose answer is Accept and is not part of this phase. On
success the result carries the final state and the unconsumed lines. -/
def handleInbound (h : Handler) (lines : List (List Char)) :
    Except String (InboundState × List (List Char)) :=
  match handleInboundLoop h lines
      { ourChecksum := 0, proposals := [], remoteNoMsgs := false,
        quitReceived := false } with
  | .fatal msg => .error msg
  | .noInput => .error "read error"
  | .emptyBlockReturn st rest => .ok (st, rest)
  | .broke st rest =>
    let nAccepted : Nat := 0
    if st.quitReceived ∧ nAccepted > 0 then
      .error "Got quit command when inbound proposals were pending"
    else
      .ok (st, rest)

end Fbb

namespace Fbb

/-- One-step reduction of the loop on an `F>` line: verify the block
checksum, return on an empty block, otherwise answer and break (part_003
lines 246-270). -/
theorem handleInboundLoop_fprompt (h : Handler) (st : InboundState)
    (tail : List Char) (rest : List (List Char)) :
    handleInboundLoop h (('F' :: '>' :: tail) :: rest) st =
      (if goParseHex (tail.drop 1) ≠ (-(st.ourChecksum)) % 256 then
        .fatal (checksumErrMsg ((-(st.ourChecksum)) % 256)
          (goParseHex (tail.drop 1)))
      else if st.proposals = [] then
        .emptyBlockReturn { st with remoteNoMsgs := true } rest
      else
        .broke { st with remoteNoMsgs := false,
                         proposals := writeProposalsAnswer h st.proposals } rest) := by
  simp [handleInboundLoop]

/-- What handleOutbound does after the sent-map cleanup (part_003 lines
75-87 and, for the legacy variant, part_004 lines 74-91). -/
inductive OutboundAction where
  | proposeNextBlock
  | turnoverImplied
  | sendFQ
  | sendFF
deriving DecidableEq, Repr

/-- The turnover switch at the end of part_003's handleOutbound (lines
75-87): `outboundLen` is the number of proposals selected at entry,
`sentLen` is `len(sent)` after rejected MIDs were deleted, and
`remoteNoMsgs` is `s.remoteNoMsgs`. Turnover is implied whenever the
block was non-empty, regardless of the answers. -/
def handleOutboundTurnover (outboundLen sentLen : Nat)
    (remoteNoMsgs : Bool) : OutboundAction :=
  if outboundLen > 0 then .turnoverImplied
  else if remoteNoMsgs ∧ sentLen = 0 then .sendFQ
  else .sendFF

/-- The same decision in the legacy variant (part_004 lines 74-91):
when everything was rejected or deferred and outbound messages remain
(`s.outbound()` re-queried), loop back and propose a new block before
any turnover. -/
def legacyHandleOutboundTurnover (sentLen outboundRemaining : Nat)
    (remoteNoMsgs : Bool) : OutboundAction :=
  if sentLen = 0 ∧ outboundRemaining > 0 then .proposeNextBlock
  else if sentLen > 0 then .turnoverImplied
  else if remoteNoMsgs ∧ sentLen = 0 then .sendFQ
  else .sendFF

end Fbb

/-- Claim C4: for every outbound proposal block the emitted `F> XX`
checksum satisfies `(Σ bytes of all proposal lines incl. CR + checksum)
mod 256 = 0`; and on the inbound side an `F>` line whose hex value
differs from `(-Σ) & 0xff` of the locally accumulated checksum makes
handleInbound fail with the checksum error. -/
theorem C4_block_checksum :
    (∀ props : List Fbb.Proposal,
      (Fbb.blockSum props + Fbb.sendOutboundChecksum props) % 256 = 0) ∧
    (∀ (h : Fbb.Handler) (st : Fbb.InboundState) (tail : List Char)
        (rest : List (List Char)),
      Fbb.goParseHex (tail.drop 1) ≠ (-(st.ourChecksum)) % 256 →
      Fbb.handleInboundLoop h (('F' :: '>' :: tail) :: rest) st =
        .fatal (Fbb.checksumErrMsg ((-(st.ourChecksum)) % 256)
          (Fbb.goParseHex (tail.drop 1)))) := by
  constructor
  · intro props
    unfold Fbb.sendOutboundChecksum
    omega
  · intro h st tail rest hne
    rw [Fbb.handleInboundLoop_fprompt, if_pos hne]

/-- Witness for C4: the concrete proposal block of the repository's own
session test sums to zero with its checksum, and an `F> 00` answer to a
block whose running sum is 1000 is rejected as a checksum error. -/
theorem C4_witness :
    ((Fbb.blockSum [demoProposal 'C' "AAA"] +
        Fbb.sendOutboundChecksum [demoProposal 'C' "AAA"]) % 256 = 0) ∧
    Fbb.handleInboundLoop (.single fun _ => .accept)
        (('F' :: '>' :: [' ', '0', '0']) :: [])
        { ourChecksum := 1000, proposals := [demoProposal 'C' "AAA"],
          remoteNoMsgs := false, quitReceived := false } =
      .fatal (Fbb.checksumErrMsg ((-(1000 : Int)) % 256)
        (Fbb.goParseHex ([' ', '0', '0'].drop 1))) := by
  constructor
  · exact C4_block_checksum.1 [demoProposal 'C' "AAA"]
  · exact C4_block_checksum.2 (.single fun _ => .accept)
      { ourChecksum := 1000, proposals := [demoProposal 'C' "AAA"],
        remoteNoMsgs := false, quitReceived := false }
      [' ', '0', '0'] [] (by decide)

/-- Propositional equality on `Except` values is decidable when it is on
both components (used to evaluate session outcomes on concrete inputs). -/
instance exceptDecEq {e a : Type} [DecidableEq e] [DecidableEq a] :
    DecidableEq (Except e a) := fun x y =>
  match x, y with
  | .ok v, .ok w =>
    if h : v = w then isTrue (by rw [h]) else isFalse (by intro hc; cases hc; exact h rfl)
  | .error v, .error w =>
    if h : v = w then isTrue (by rw [h]) else isFalse (by intro hc; cases hc; exact h rfl)
  | .ok _, .error _ => isFalse (by intro hc; cases hc)
  | .error _, .ok _ => isFalse (by intro hc; cases hc)

/-- Counterexample to C7: with one outbound proposal selected and every
proposal rejected (len(sent) = 0 after the rejected entries are deleted),
the current handleOutbound implies turnover instead of proposing a next
block; and on the inbound side, after answering a block with 0 accepts
(handler rejects the only proposal of the repository's own test block),
handleInbound stops with turnover implied, leaving the following `FQ`
line unconsumed instead of continuing to receive. -/
theorem C7_counterexample :
    (Fbb.handleOutboundTurnover 1 0 false = .turnoverImplied ∧
      Fbb.handleOutboundTurnover 1 0 false ≠ .proposeNextBlock) ∧
    Fbb.handleInbound (.single fun _ => .reject)
        ["FC EM TJKYEIMMHSRB 527 123 0".data, "F> 3b".data, "FQ".data] =
      .ok ({ ourChecksum := Fbb.lineSum "FC EM TJKYEIMMHSRB 527 123 0".data,
             proposals := [{ code := 'C', msgType := "EM", mid := "TJKYEIMMHSRB",
                             size := 527, compressedSize := 123, title := "",
                             offset := 0, answer := .reject,
                             compressedData := [] }],
             remoteNoMsgs := false, quitReceived := false }, ["FQ".data]) := by
  refine ⟨⟨by decide, by decide⟩, by decide⟩

/-- Amended C7: in the current variant, a proposal block with no accepted
proposal still causes session turnover — a non-empty outbound block
always implies turnover (no next block is proposed first), and the
inbound loop breaks with turnover implied after answering any non-empty
block, whatever the answers. -/
theorem C7_amended_turnover_implied :
    (∀ (outboundLen sentLen : Nat) (remoteNoMsgs : Bool), 0 < outboundLen →
      Fbb.handleOutboundTurnover outboundLen sentLen remoteNoMsgs =
        .turnoverImplied) ∧
    (∀ (h : Fbb.Handler) (st : Fbb.InboundState) (tail : List Char)
        (rest : List (List Char)),
      Fbb.goParseHex (tail.drop 1) = (-(st.ourChecksum)) % 256 →
      st.proposals ≠ [] →
      Fbb.handleInboundLoop h (('F' :: '>' :: tail) :: rest) st =
        .broke { st with remoteNoMsgs := false,
                         proposals := Fbb.writeProposalsAnswer h st.proposals }
          rest) := by
  constructor
  · intro o s r ho
    unfold Fbb.handleOutboundTurnover
    rw [if_pos ho]
  · intro h st tail rest heq hne
    rw [Fbb.handleInboundLoop_fprompt, if_neg (not_not_intro heq), if_neg hne]

/-- Witness for the amended C7 at concrete inputs: a 3-proposal
all-rejected block still turns over, and a matching `F>` answer on a
non-empty block breaks the loop with the block answered. -/
theorem C7_amended_witness :
    Fbb.handleOutboundTurnover 3 0 false = .turnoverImplied ∧
    Fbb.handleInboundLoop (.single fun _ => .reject)
        (('F' :: '>' :: [' ', '1', '8']) :: ["FQ".data])
        { ourChecksum := 1000, proposals := [demoProposal 'C' "AAA"],
          remoteNoMsgs := false, quitReceived := false } =
      .broke { ourChecksum := 1000,
               proposals := Fbb.writeProposalsAnswer (.single fun _ => .reject)
                 [demoProposal 'C' "AAA"],
               remoteNoMsgs := false, quitReceived := false } ["FQ".data] := by
  constructor
  · exact C7_amended_turnover_implied.1 3 0 false (by decide)
  · exact C7_amended_turnover_implied.2 (.single fun _ => .reject)
      { ourChecksum := 1000, proposals := [demoProposal 'C' "AAA"],
        remoteNoMsgs := false, quitReceived := false }
      [' ', '1', '8'] ["FQ".data] (by decide) (by decide)

/-- The legacy variant (part_004) does have the claimed loop-back: with
everything rejected or deferred and outbound messages remaining, it
proposes the next block before any turnover. -/
theorem legacyHandleOutboundTurnover_nextBlock (outboundRemaining : Nat)
    (remoteNoMsgs : Bool) (ho : 0 < outboundRemaining) :
    Fbb.legacyHandleOutboundTurnover 0 outboundRemaining remoteNoMsgs =
      .proposeNextBlock := by
  unfold Fbb.legacyHandleOutboundTurnover
  rw [if_pos ⟨rfl, ho⟩]

/-- The quit-while-pending guard of part_003's handleInbound never fires:
whenever the loop breaks, handleInbound returns cleanly, because
`nAccepted` is never assigned in this variant (the count returned by
writeProposalsAnswer is discarded), so the guard compares 0 > 0. -/
theorem handleInbound_broke_ok (h : Fbb.Handler) (lines : List (List Char))
    (st : Fbb.InboundState) (rest : List (List Char))
    (hb : Fbb.handleInboundLoop h lines
      { ourChecksum := 0, proposals := [], remoteNoMsgs := false,
        quitReceived := false } = .broke st rest) :
    Fbb.handleInbound h lines = .ok (st, rest) := by
  unfold Fbb.handleInbound
  rw [hb]
  simp

/-- Claim C8 (evaluation at the failing input): an FQ line arriving while
a collected proposal is still pending makes handleInbound return cleanly
with quitReceived set and no error — the "Got quit command when inbound
proposals were pending" guard tests nAccepted > 0, and nAccepted is never
assigned in this variant. -/
theorem C8_fq_with_pending_returns_cleanly :
    Fbb.handleInbound (.single fun _ => .accept)
        ["FC EM TJKYEIMMHSRB 527 123 0".data, "FQ".data] =
      .ok ({ ourChecksum := Fbb.lineSum "FC EM TJKYEIMMHSRB 527 123 0".data,
             proposals := [{ code := 'C', msgType := "EM", mid := "TJKYEIMMHSRB",
                             size := 527, compressedSize := 123, title := "",
                             offset := 0, answer := .unset,
                             compressedData := [] }],
             remoteNoMsgs := false, quitReceived := true }, []) := by
  decide

namespace Fbb

/-- `strings.LastIndexAny(str, "0123456789")` (part_003 line 392): the
index of the last decimal digit anywhere in the string, if any. -/
def lastDigitIdx : List Char → Option Nat
  | [] => none
  | c :: cs =>
    match lastDigitIdx cs with
    | some i => some (i + 1)
    | none => if '0' ≤ c ∧ c ≤ '9' then some 0 else none

/-- `strconv.Atoi` with the returned error discarded
(`prop.offset, _ = strconv.Atoi(...)`, part_003 line 397): one optional
sign followed by digits gives the value, anything else leaves 0. The
int64 range clamp is not modelled: both the clamped and the exact value
exceed the 999999 limit and are zeroed by the check that follows. -/
def goAtoi (s : List Char) : Int :=
  if s.headD ' ' = '+' then ((decVal s.tail).getD 0 : Nat)
  else if s.headD ' ' = '-' then -(((decVal s.tail).getD 0 : Nat) : Int)
  else ((decVal s).getD 0 : Nat)

/-- parseProposalAnswer (part_003 lines 363-416), after the `FS ` prefix
strip: one answer character per proposal, in order. `Y`/`y`/`+` accept,
`N`/`n`/`R`/`r`/`-` reject, `L`/`l`/`=`/`H`/`h` defer; `A`/`a`/`!`
accept with an offset parsed from the remainder through its last digit
(`strings.LastIndexAny`), zeroed when above ProtocolOffsetSizeLimit; no
digit at all in the remainder is an error, as is any other character.
Proposals beyond the answer characters keep their previous answer;
answer characters beyond the proposals are an error. The recursion is
structural in the proposals: each loop iteration consumes exactly one. -/
def parseProposalAnswer : List Char → List Proposal → Except String (List Proposal)
  | [], props => .ok props
  | _ :: _, [] => .error "Got answer for more proposals than expected"
  | c :: str, p :: ps =>
    if c = 'Y' ∨ c = 'y' ∨ c = '+' then
      (parseProposalAnswer str ps).map (fun qs => { p with answer := .accept } :: qs)
    else if c = 'N' ∨ c = 'n' ∨ c = 'R' ∨ c = 'r' ∨ c = '-' then
      (parseProposalAnswer str ps).map (fun qs => { p with answer := .reject } :: qs)
    else if c = 'L' ∨ c = 'l' ∨ c = '=' ∨ c = 'H' ∨ c = 'h' then
      (parseProposalAnswer str ps).map (fun qs => { p with answer := .defer } :: qs)
    else if c = 'A' ∨ c = 'a' ∨ c = '!' then
      match lastDigitIdx str with
      | none => .error "Got offset request without offset index"
      | some idx =>
        let offset0 := goAtoi (str.take (idx + 1))
        let offset := if offset0 > ProtocolOffsetSizeLimit then 0 else offset0
        (parseProposalAnswer (str.drop (idx + 1)) ps).map
          (fun qs => { p with answer := .accept, offset := offset } :: qs)
    else .error "Invalid character in proposal answer line"

theorem lastDigitIdx_none (s : List Char)
    (h : ∀ c ∈ s, ¬('0' ≤ c ∧ c ≤ '9')) : lastDigitIdx s = none := by
  induction s with
  | nil => rfl
  | cons c cs ih =>
    have h1 := ih (fun d hd => h d (List.mem_cons_of_mem c hd))
    have h2 := h c (List.mem_cons_self c cs)
    simp [lastDigitIdx, h1, h2]

theorem lastDigitIdx_append_digits (ds rest : List Char) (hne : ds ≠ [])
    (hds : ∀ c ∈ ds, '0' ≤ c ∧ c ≤ '9')
    (hrest : ∀ c ∈ rest, ¬('0' ≤ c ∧ c ≤ '9')) :
    lastDigitIdx (ds ++ rest) = some (ds.length - 1) := by
  induction ds with
  | nil => exact absurd rfl hne
  | cons d ds2 ih =>
    cases ds2 with
    | nil =>
      have hd := hds d (List.mem_cons_self d [])
      simp [lastDigitIdx, lastDigitIdx_none rest hrest, hd]
    | cons e es =>
      have h2 := ih (by simp) (fun c hc => hds c (List.mem_cons_of_mem d hc))
      rw [List.cons_append, lastDigitIdx, h2]
      simp

theorem parseProposalAnswer_accept_none (c : Char)
    (hc : c = 'A' ∨ c = 'a' ∨ c = '!') (str : List Char) (p : Proposal)
    (ps : List Proposal) (hnone : lastDigitIdx str = none) :
    parseProposalAnswer (c :: str) (p :: ps) =
      .error "Got offset request without offset index" := by
  rcases hc with rfl | rfl | rfl <;>
    · simp only [parseProposalAnswer]
      rw [if_neg (by decide), if_neg (by decide), if_neg (by decide),
        if_pos (by decide), hnone]

theorem parseProposalAnswer_accept_some (c : Char)
    (hc : c = 'A' ∨ c = 'a' ∨ c = '!') (str : List Char) (p : Proposal)
    (ps : List Proposal) (idx : Nat) (hsome : lastDigitIdx str = some idx) :
    parseProposalAnswer (c :: str) (p :: ps) =
      (parseProposalAnswer (str.drop (idx + 1)) ps).map
        (fun qs =>
          { p with
              answer := .accept,
              offset := if goAtoi (str.take (idx + 1)) > ProtocolOffsetSizeLimit
                then 0 else goAtoi (str.take (idx + 1)) } :: qs) := by
  rcases hc with rfl | rfl | rfl <;>
    · simp only [parseProposalAnswer]
      rw [if_neg (by decide), if_neg (by decide), if_neg (by decide),
        if_pos (by decide), hsome]

end Fbb

/-- Claim C9: in parseProposalAnswer an answer character A, a or !
followed by decimal digits sets that proposal's answer to Accept with
the offset parsed from those digits — consuming through the last digit
remaining in the answer string — and an offset above 999999 is silently
zeroed while parsing continues without error; A/a/! with no digit in the
remainder is an error, as is any character outside the documented sets. -/
theorem C9_parseProposalAnswer :
    ∀ (c : Char) (p : Fbb.Proposal) (ps : List Fbb.Proposal),
      ((c = 'A' ∨ c = 'a' ∨ c = '!') →
        (∀ str : List Char, (∀ d ∈ str, ¬('0' ≤ d ∧ d ≤ '9')) →
          Fbb.parseProposalAnswer (c :: str) (p :: ps) =
            .error "Got offset request without offset index") ∧
        (∀ ds rest : List Char, ds ≠ [] → (∀ d ∈ ds, '0' ≤ d ∧ d ≤ '9') →
          (∀ d ∈ rest, ¬('0' ≤ d ∧ d ≤ '9')) →
          Fbb.parseProposalAnswer (c :: (ds ++ rest)) (p :: ps) =
            (Fbb.parseProposalAnswer rest ps).map
              (fun qs =>
                { p with
                    answer := .accept,
                    offset :=
                      if (((Fbb.decVal ds).getD 0 : Nat) : Int) >
                          Fbb.ProtocolOffsetSizeLimit
                      then 0
                      else (((Fbb.decVal ds).getD 0 : Nat) : Int) } :: qs))) ∧
      (∀ str : List Char,
        c ∉ ['Y', 'y', '+', 'N', 'n', 'R', 'r', '-', 'L', 'l', '=', 'H', 'h',
          'A', 'a', '!'] →
        Fbb.parseProposalAnswer (c :: str) (p :: ps) =
          .error "Invalid character in proposal answer line") := by
  intro c p ps
  constructor
  · intro hc
    constructor
    · intro str hstr
      exact Fbb.parseProposalAnswer_accept_none c hc str p ps
        (Fbb.lastDigitIdx_none str hstr)
    · intro ds rest hne hds hrest
      have hidx := Fbb.lastDigitIdx_append_digits ds rest hne hds hrest
      have hsome := Fbb.parseProposalAnswer_accept_some c hc (ds ++ rest) p ps
        (ds.length - 1) hidx
      have hlen : ds.length - 1 + 1 = ds.length := by
        cases ds with
        | nil => exact absurd rfl hne
        | cons d ds2 => simp
      have hAtoi : Fbb.goAtoi ds = (((Fbb.decVal ds).getD 0 : Nat) : Int) := by
        cases ds with
        | nil => exact absurd rfl hne
        | cons d ds2 =>
          have hd : '0' ≤ d ∧ d ≤ '9' := hds d (List.mem_cons_self d ds2)
          have h1 : ¬((d :: ds2).headD ' ' = '+') := by
            simp only [List.headD_cons]
            rintro rfl
            revert hd
            decide
          have h2 : ¬((d :: ds2).headD ' ' = '-') := by
            simp only [List.headD_cons]
            rintro rfl
            revert hd
            decide
          rw [Fbb.goAtoi, if_neg h1, if_neg h2]
      rw [hsome, hlen, List.take_left, List.drop_left, hAtoi]
  · intro str hc
    have h1 : ¬(c = 'Y' ∨ c = 'y' ∨ c = '+') := by
      rintro (rfl | rfl | rfl) <;> exact hc (by decide)
    have h2 : ¬(c = 'N' ∨ c = 'n' ∨ c = 'R' ∨ c = 'r' ∨ c = '-') := by
      rintro (rfl | rfl | rfl | rfl | rfl) <;> exact hc (by decide)
    have h3 : ¬(c = 'L' ∨ c = 'l' ∨ c = '=' ∨ c = 'H' ∨ c = 'h') := by
      rintro (rfl | rfl | rfl | rfl | rfl) <;> exact hc (by decide)
    have h4 : ¬(c = 'A' ∨ c = 'a' ∨ c = '!') := by
      rintro (rfl | rfl | rfl) <;> exact hc (by decide)
    simp only [Fbb.parseProposalAnswer]
    rw [if_neg h1, if_neg h2, if_neg h3, if_neg h4]

/-- Witness for C9: `A1000000Y` on two proposals accepts the first with
the over-limit offset zeroed and accepts the second; `AZ` is an
offset-request error; `X` is an invalid answer character. -/
theorem C9_witness :
    Fbb.parseProposalAnswer ('A' :: ("1000000".data ++ "Y".data))
        [demoProposal 'C' "AAA", demoProposal 'C' "BBB"] =
      .ok [{ demoProposal 'C' "AAA" with answer := .accept, offset := 0 },
        { demoProposal 'C' "BBB" with answer := .accept }] ∧
    Fbb.parseProposalAnswer ('A' :: "Z".data) [demoProposal 'C' "AAA"] =
      .error "Got offset request without offset index" ∧
    Fbb.parseProposalAnswer ('X' :: []) [demoProposal 'C' "AAA"] =
      .error "Invalid character in proposal answer line" := by
  refine ⟨?_, ?_, ?_⟩
  · exact (((C9_parseProposalAnswer 'A' (demoProposal 'C' "AAA")
        [demoProposal 'C' "BBB"]).1 (Or.inl rfl)).2 "1000000".data "Y".data
      (by decide) (by decide) (by decide)).trans (by decide)
  · exact ((C9_parseProposalAnswer 'A' (demoProposal 'C' "AAA") []).1
      (Or.inl rfl)).1 "Z".data (by decide)
  · exact (C9_parseProposalAnswer 'X' (demoProposal 'C' "AAA") []).2 []
      (by decide)
